import Mathlib

/-!
Verification of AuraLog's temporal aggregation logic (`src/app.py`).

The embedding models the two core functions `calculate_streak` and
`create_activity_heatmap`.  A calendar date is an integer day number, so
`today - timedelta(days=1)` in the source becomes integer subtraction by 1.
A cell of the CSV table is recorded as the outcome of attempting to parse
its raw value as a timestamp (`some d` when it parses to calendar day `d`,
`none` when it does not, pandas `NaT`).  The store-reading preamble of each
function is modelled by a `Store` value describing what `pd.read_csv`
produced.
-/

/-- A table cell, given as the outcome of timestamp parsing for its raw
value: `some d` when the value parses to the calendar day `d`, `none` when
parsing fails (`errors='coerce'` yields `NaT`). -/
abbrev Cell := Option Int

/-- A record set as produced by `pd.read_csv`: a header of column names and
one list of cells per record, aligned with the header. -/
structure DataFrame where
  cols : List String
  rows : List (List Cell)
deriving Repr, DecidableEq

/-- The cell of row `r` in column `i`; a missing cell acts as unparseable. -/
def getCell (r : List Cell) (i : Nat) : Cell := r.getD i none

/-- Pandas `df.empty`: some axis has length zero. -/
def dfEmpty (df : DataFrame) : Bool := df.rows.isEmpty || df.cols.isEmpty

/-- Whether `pd.to_datetime(df.iloc[:, 0], errors='raise')` succeeds: exactly
when the first cell of every record parses. -/
def firstColParses (df : DataFrame) : Bool :=
  df.rows.all fun r => (getCell r 0).isSome

/-- What reading the store produced: the file is absent or has size zero, the
read raised (`EmptyDataError` or another exception), or a data frame. -/
inductive Store where
  | missing
  | emptyData
  | malformed
  | ok (df : DataFrame)

/-- Column resolution in `calculate_streak` (app.py lines 33-51): the column
named `timestamp`, else the column named `Date and Time`, else the first
column provided the whole first column parses; `none` when the file has no
columns or that parse fails. -/
def streakResolveCol (df : DataFrame) : Option Nat :=
  if "timestamp" ∈ df.cols then some (df.cols.indexOf "timestamp")
  else if "Date and Time" ∈ df.cols then some (df.cols.indexOf "Date and Time")
  else if 0 < df.cols.length then
    if firstColParses df then some 0 else none
  else none

/-- Lines 53-63 of `calculate_streak`: parse column `i` with
`errors='coerce'`, drop the rows whose value did not parse (`dropna`) and
keep the calendar day of each survivor (`.dt.date`). -/
def streakParsedDates (df : DataFrame) (i : Nat) : List Int :=
  df.rows.filterMap fun r => getCell r i

/-- Line 64: `sorted(df['date'].unique(), reverse=True)` — the distinct
dates, sorted descending. -/
def uniqueDatesDesc (dates : List Int) : List Int :=
  List.insertionSort (fun a b : Int => a ≥ b) dates.dedup

/-- Lines 76-81: walk the remaining distinct dates in descending order,
counting while each is exactly one day before the cursor, stopping at the
first gap. -/
def streakWalk (cursor : Int) : List Int → Nat
  | [] => 0
  | d :: ds => if cursor - d = 1 then 1 + streakWalk d ds else 0

/-- Lines 63-83 of `calculate_streak`, from the parsed dates on: streak is 0
unless the most recent distinct date is today or yesterday, else 1 plus the
walk over the remaining distinct dates. -/
def calcStreakFromDates (dates : List Int) (today : Int) : Nat :=
  match uniqueDatesDesc dates with
  | [] => 0
  | d0 :: rest =>
    if d0 = today ∨ d0 = today - 1 then 1 + streakWalk d0 rest else 0

/-- The function `calculate_streak` (app.py lines 9-83).  The missing/zero-size-file check
and every `except` branch return 0; an empty frame returns 0; then column
resolution, parsing, and the streak computation. -/
def calculate_streak (s : Store) (today : Int) : Nat :=
  match s with
  | .missing => 0
  | .emptyData => 0
  | .malformed => 0
  | .ok df =>
    if dfEmpty df then 0
    else
      match streakResolveCol df with
      | none => 0
      | some i =>
        let dates := streakParsedDates df i
        if dates.isEmpty then 0 else calcStreakFromDates dates today

/-- Column resolution in `create_activity_heatmap` (app.py lines 107-125),
a textual duplicate of the block in `calculate_streak`. -/
def heatmapResolveCol (df : DataFrame) : Option Nat :=
  if "timestamp" ∈ df.cols then some (df.cols.indexOf "timestamp")
  else if "Date and Time" ∈ df.cols then some (df.cols.indexOf "Date and Time")
  else if 0 < df.cols.length then
    if firstColParses df then some 0 else none
  else none

/-- Lines 127-135 of `create_activity_heatmap`: parse column `i` with
`errors='coerce'` and drop the rows whose value did not parse. -/
def heatmapParsedDates (df : DataFrame) (i : Nat) : List Int :=
  df.rows.filterMap fun r => getCell r i

/-- Line 138: `df['parsed_timestamp'].dt.date.value_counts().sort_index()` —
each distinct date with its number of occurrences, ordered by date
ascending. -/
def dailyCounts (dates : List Int) : List (Int × Nat) :=
  (List.insertionSort (fun a b : Int => a ≤ b) dates.dedup).map
    fun d => (d, dates.count d)

/-- The function `create_activity_heatmap` (app.py lines 87-161), modelled up to the
`events` series handed to the renderer: `none` on every early return, else
the per-day counts. -/
def create_activity_heatmap (s : Store) : Option (List (Int × Nat)) :=
  match s with
  | .missing => none
  | .emptyData => none
  | .malformed => none
  | .ok df =>
    if dfEmpty df then none
    else
      match heatmapResolveCol df with
      | none => none
      | some i =>
        let dates := heatmapParsedDates df i
        if dates.isEmpty then none
        else
          let events := dailyCounts dates
          if events.isEmpty then none else some events

/-- Modelled from the spec's streak algorithm: the length of the longest
chain of dates at the front of `ds`, each exactly one day before the
previous, starting one day below the cursor `c` — "incrementing the streak
for each date exactly one day before the cursor and stopping at the first
date that is not". -/
def chainLen (c : Int) (ds : List Int) : Nat :=
  Nat.findGreatest (fun k => ∀ i, i < k → ds.get? i = some (c - (i + 1))) ds.length

/-- Modelled from the spec's streak algorithm (spec §4.2 steps 2-6): distinct
dates sorted descending; 0 when the most recent is neither today nor
yesterday; else 1 plus the longest consecutive chain after it. -/
def streakSpec (dates : List Int) (today : Int) : Nat :=
  match uniqueDatesDesc dates with
  | [] => 0
  | d0 :: rest =>
    if d0 = today ∨ d0 = today - 1 then 1 + chainLen d0 rest else 0

/-- The most recent distinct date of a parsed date sequence. -/
def streakRunStart (dates : List Int) : Int := (uniqueDatesDesc dates).headD 0

/-- The earliest day of the consecutive run that realizes the streak. -/
def streakRunEarliest (dates : List Int) (today : Int) : Int :=
  streakRunStart dates - ((calcStreakFromDates dates today : Int) - 1)

/-- The number of distinct successfully parsed calendar dates reachable from
a store read, following the same pipeline as `calculate_streak`. -/
def distinctParsedCount (s : Store) : Nat :=
  match s with
  | .missing => 0
  | .emptyData => 0
  | .malformed => 0
  | .ok df =>
    if dfEmpty df then 0
    else
      match streakResolveCol df with
      | none => 0
      | some i => (streakParsedDates df i).dedup.length

/-- The sub-table of exactly the records whose timestamp in column `i`
parses (the rows `dropna` keeps). -/
def parseableOnly (df : DataFrame) (i : Nat) : DataFrame :=
  ⟨df.cols, df.rows.filter fun r => (getCell r i).isSome⟩

theorem streakWalk_cons (c d : Int) (ds : List Int) :
    streakWalk c (d :: ds) = if c - d = 1 then 1 + streakWalk d ds else 0 := rfl

/-- The walk never counts more dates than remain. -/
theorem streakWalk_le_length (c : Int) (ds : List Int) :
    streakWalk c ds ≤ ds.length := by
  induction ds generalizing c with
  | nil => simp [streakWalk]
  | cons d ds ih =>
    rw [streakWalk_cons]
    by_cases hcd : c - d = 1
    · rw [if_pos hcd]
      have := ih d
      simp only [List.length_cons]
      omega
    · rw [if_neg hcd]
      simp

/-- Every position the walk counts holds exactly the next consecutive day. -/
theorem streakWalk_get (c : Int) (ds : List Int) :
    ∀ i, i < streakWalk c ds → ds.get? i = some (c - (i + 1)) := by
  induction ds generalizing c with
  | nil => simp [streakWalk]
  | cons d ds ih =>
    intro i hi
    rw [streakWalk_cons] at hi
    by_cases hcd : c - d = 1
    · rw [if_pos hcd] at hi
      cases i with
      | zero =>
        rw [List.get?_cons_zero]
        congr 1
        push_cast
        omega
      | succ j =>
        have hj : j < streakWalk d ds := by omega
        rw [List.get?_cons_succ, ih d j hj]
        congr 1
        push_cast
        omega
    · rw [if_neg hcd] at hi
      omega

/-- Where the walk stops, the next consecutive day is not present. -/
theorem streakWalk_stop (c : Int) (ds : List Int) :
    streakWalk c ds < ds.length →
    ds.get? (streakWalk c ds) ≠ some (c - (streakWalk c ds + 1)) := by
  induction ds generalizing c with
  | nil => simp [streakWalk]
  | cons d ds ih =>
    by_cases hcd : c - d = 1
    · rw [streakWalk_cons, if_pos hcd]
      intro hlen hcontra
      have h1 : 1 + streakWalk d ds = streakWalk d ds + 1 := by omega
      rw [h1, List.get?_cons_succ] at hcontra
      have hlen2 : streakWalk d ds < ds.length := by
        rw [h1, List.length_cons] at hlen
        omega
      apply ih d hlen2
      rw [hcontra]
      congr 1
      push_cast
      omega
    · rw [streakWalk_cons, if_neg hcd]
      intro hlen hcontra
      rw [List.get?_cons_zero] at hcontra
      have hval := Option.some.inj hcontra
      push_cast at hval
      omega

/-- The walk of the source code computes exactly the spec's longest
consecutive chain. -/
theorem streakWalk_eq_chainLen (c : Int) (ds : List Int) :
    streakWalk c ds = chainLen c ds := by
  symm
  rw [chainLen, Nat.findGreatest_eq_iff]
  refine ⟨streakWalk_le_length c ds, fun _ => streakWalk_get c ds, ?_⟩
  intro n hlt hle hP
  have hget := hP (streakWalk c ds) hlt
  exact streakWalk_stop c ds (lt_of_lt_of_le hlt hle) hget

/-- C1 — The streak computation follows the specified algorithm: distinct
dates sorted descending, 0 unless the most recent distinct date is today or
yesterday, else 1 plus the longest run of consecutive previous days, never
looking past the first gap. -/
theorem c1_streak_follows_spec (dates : List Int) (today : Int) :
    calcStreakFromDates dates today = streakSpec dates today := by
  unfold calcStreakFromDates streakSpec
  cases uniqueDatesDesc dates with
  | nil => rfl
  | cons d0 rest =>
    show (if d0 = today ∨ d0 = today - 1 then 1 + streakWalk d0 rest else 0)
      = if d0 = today ∨ d0 = today - 1 then 1 + chainLen d0 rest else 0
    rw [streakWalk_eq_chainLen]

theorem mem_uniqueDatesDesc {x : Int} {l : List Int} :
    x ∈ uniqueDatesDesc l ↔ x ∈ l := by
  rw [uniqueDatesDesc, (List.perm_insertionSort _ _).mem_iff, List.mem_dedup]

/-- The distinct sorted-descending date list is strictly descending. -/
theorem uniqueDatesDesc_sorted (l : List Int) :
    List.Pairwise (fun a b : Int => a > b) (uniqueDatesDesc l) := by
  have h1 : List.Sorted (fun a b : Int => a ≥ b) (uniqueDatesDesc l) :=
    List.sorted_insertionSort _ _
  have h2 : (uniqueDatesDesc l).Nodup :=
    ((List.perm_insertionSort _ _).nodup_iff).2 (List.nodup_dedup l)
  exact (List.Pairwise.and h1 h2).imp fun h => lt_of_le_of_ne h.1 (Ne.symm h.2)

/-- The head of the distinct sorted-descending list bounds every date. -/
theorem uniqueDatesDesc_head_max {l : List Int} {d0 : Int} {rest : List Int}
    (h : uniqueDatesDesc l = d0 :: rest) : ∀ x ∈ l, x ≤ d0 := by
  intro x hx
  have hmem : x ∈ d0 :: rest := h ▸ mem_uniqueDatesDesc.2 hx
  rcases List.mem_cons.1 hmem with heq | hx2
  · exact le_of_eq heq
  · have hp := uniqueDatesDesc_sorted l
    rw [h] at hp
    exact le_of_lt ((List.pairwise_cons.1 hp).1 x hx2)

/-- Every day the walk counts is a member of the walked list. -/
theorem streakWalk_mem (c : Int) (ds : List Int) :
    ∀ j : Nat, 1 ≤ j → j ≤ streakWalk c ds → (c - j) ∈ ds := by
  intro j h1 h2
  obtain ⟨k, rfl⟩ : ∃ k, j = k + 1 := ⟨j - 1, by omega⟩
  have hk : k < streakWalk c ds := by omega
  have hmem := List.get?_mem (streakWalk_get c ds k hk)
  have hcast : c - ((k : Int) + 1) = c - ((k + 1 : Nat) : Int) := by push_cast; ring
  rwa [hcast] at hmem

/-- On a strictly descending list below the cursor, the day just past the
walk is absent. -/
theorem streakWalk_stop_not_mem (c : Int) (ds : List Int)
    (hs : List.Pairwise (fun a b : Int => a > b) ds) (hlt : ∀ x ∈ ds, x < c) :
    (c - ((streakWalk c ds : Int) + 1)) ∉ ds := by
  induction ds generalizing c with
  | nil => simp
  | cons d ds ih =>
    have hd : ∀ x ∈ ds, x < d := fun x hx => (List.pairwise_cons.1 hs).1 x hx
    have hs2 : List.Pairwise (fun a b : Int => a > b) ds := (List.pairwise_cons.1 hs).2
    by_cases hcd : c - d = 1
    · rw [streakWalk_cons, if_pos hcd]
      have hcast : c - (((1 + streakWalk d ds : Nat) : Int) + 1)
          = d - ((streakWalk d ds : Int) + 1) := by push_cast; omega
      rw [hcast]
      intro hmem
      rcases List.mem_cons.1 hmem with heq | hmem2
      · omega
      · exact ih d hs2 hd hmem2
    · rw [streakWalk_cons, if_neg hcd]
      intro hmem
      rcases List.mem_cons.1 hmem with heq | hmem2
      · push_cast at heq; omega
      · have hxd := hd _ hmem2
        have hdc := hlt d (List.mem_cons_self d ds)
        push_cast at hxd
        omega

/-- On a strictly descending list below the cursor, the walk counts at least
as far as any consecutive chain realized by membership. -/
theorem le_streakWalk_of_mem (c : Int) (ds : List Int) (k : Nat)
    (hs : List.Pairwise (fun a b : Int => a > b) ds)
    (hlt : ∀ x ∈ ds, x < c)
    (hmem : ∀ j : Nat, 1 ≤ j → j ≤ k → (c - j) ∈ ds) :
    k ≤ streakWalk c ds := by
  induction ds generalizing c k with
  | nil =>
    cases k with
    | zero => exact Nat.zero_le _
    | succ k2 => exact absurd (hmem 1 (by omega) (by omega)) (List.not_mem_nil _)
  | cons d ds ih =>
    cases k with
    | zero => exact Nat.zero_le _
    | succ k2 =>
      have h1 : (c - ((1 : Nat) : Int)) ∈ d :: ds := hmem 1 (by omega) (by omega)
      have hd_eq : d = c - 1 := by
        rcases List.mem_cons.1 h1 with heq | hmem2
        · push_cast at heq; omega
        · exfalso
          have hgt := (List.pairwise_cons.1 hs).1 _ hmem2
          have hdc := hlt d (List.mem_cons_self d ds)
          push_cast at hgt
          omega
      have hcd : c - d = 1 := by omega
      rw [streakWalk_cons, if_pos hcd]
      have hk2 : k2 ≤ streakWalk d ds := by
        apply ih d k2 (List.pairwise_cons.1 hs).2
          (fun x hx => (List.pairwise_cons.1 hs).1 x hx)
        intro j hj1 hj2
        have hjmem := hmem (j + 1) (by omega) (by omega)
        have hshape : (c - ((j + 1 : Nat) : Int)) = d - (j : Int) := by
          push_cast; omega
        rw [hshape] at hjmem
        rcases List.mem_cons.1 hjmem with heq | hm
        · exfalso; omega
        · exact hm
      omega

theorem calcStreakFromDates_nil {dates : List Int} (today : Int)
    (hu : uniqueDatesDesc dates = []) : calcStreakFromDates dates today = 0 := by
  unfold calcStreakFromDates
  rw [hu]

theorem calcStreakFromDates_eq {dates : List Int} (today : Int) {d0 : Int}
    {rest : List Int} (hu : uniqueDatesDesc dates = d0 :: rest) :
    calcStreakFromDates dates today =
      if d0 = today ∨ d0 = today - 1 then 1 + streakWalk d0 rest else 0 := by
  unfold calcStreakFromDates
  rw [hu]

/-- Appending dates that all lie at least two days before the earliest day of
the realized streak run cannot change the streak. -/
theorem streak_append_older_gapped (D E : List Int) (today : Int)
    (h1 : 1 ≤ calcStreakFromDates D today)
    (hE : ∀ e ∈ E, e + 2 ≤ streakRunEarliest D today) :
    calcStreakFromDates (D ++ E) today = calcStreakFromDates D today := by
  cases hu : uniqueDatesDesc D with
  | nil => rw [calcStreakFromDates_nil today hu] at h1; omega
  | cons d0 rest =>
    have heqD := calcStreakFromDates_eq today hu
    by_cases hcond : d0 = today ∨ d0 = today - 1
    case neg => rw [heqD, if_neg hcond] at h1; omega
    rw [if_pos hcond] at heqD
    have hrest_lt : ∀ x ∈ rest, x < d0 := by
      have hp := uniqueDatesDesc_sorted D
      rw [hu] at hp
      exact fun x hx => (List.pairwise_cons.1 hp).1 x hx
    have hrest_pw : List.Pairwise (fun a b : Int => a > b) rest := by
      have hp := uniqueDatesDesc_sorted D
      rw [hu] at hp
      exact (List.pairwise_cons.1 hp).2
    have hmaxD : ∀ x ∈ D, x ≤ d0 := uniqueDatesDesc_head_max hu
    have hd0D : d0 ∈ D := by
      have h := List.mem_cons_self d0 rest
      rw [← hu] at h
      exact mem_uniqueDatesDesc.1 h
    have hearliest : streakRunEarliest D today = d0 - (streakWalk d0 rest : Int) := by
      rw [streakRunEarliest, streakRunStart, hu, heqD]
      simp only [List.headD_cons]
      push_cast
      ring
    have hE2 : ∀ e ∈ E, e ≤ d0 - (streakWalk d0 rest : Int) - 2 := by
      intro e he
      have h := hE e he
      rw [hearliest] at h
      omega
    cases hu2 : uniqueDatesDesc (D ++ E) with
    | nil =>
      exfalso
      have h : d0 ∈ uniqueDatesDesc (D ++ E) :=
        mem_uniqueDatesDesc.2 (List.mem_append_left E hd0D)
      rw [hu2] at h
      exact List.not_mem_nil _ h
    | cons e0 rest2 =>
      have he0mem : e0 ∈ D ++ E := by
        have h := List.mem_cons_self e0 rest2
        rw [← hu2] at h
        exact mem_uniqueDatesDesc.1 h
      have hwnn : (0 : Int) ≤ (streakWalk d0 rest : Int) := Int.natCast_nonneg _
      have he0le : e0 ≤ d0 := by
        rcases List.mem_append.1 he0mem with hD | hE3
        · exact hmaxD e0 hD
        · have := hE2 e0 hE3
          omega
      have hd0le : d0 ≤ e0 :=
        uniqueDatesDesc_head_max hu2 d0 (List.mem_append_left E hd0D)
      have he0 : e0 = d0 := le_antisymm he0le hd0le
      rw [he0] at hu2
      have hrest2_lt : ∀ x ∈ rest2, x < d0 := by
        have hp := uniqueDatesDesc_sorted (D ++ E)
        rw [hu2] at hp
        exact fun x hx => (List.pairwise_cons.1 hp).1 x hx
      have hrest2_pw : List.Pairwise (fun a b : Int => a > b) rest2 := by
        have hp := uniqueDatesDesc_sorted (D ++ E)
        rw [hu2] at hp
        exact (List.pairwise_cons.1 hp).2
      have hwalk_ge : streakWalk d0 rest ≤ streakWalk d0 rest2 := by
        apply le_streakWalk_of_mem d0 rest2 (streakWalk d0 rest) hrest2_pw hrest2_lt
        intro j hj1 hj2
        have hjD : (d0 - (j : Int)) ∈ rest := streakWalk_mem d0 rest j hj1 hj2
        have hjDD : (d0 - (j : Int)) ∈ D := by
          have h := List.mem_cons_of_mem d0 hjD
          rw [← hu] at h
          exact mem_uniqueDatesDesc.1 h
        have hju2 : (d0 - (j : Int)) ∈ d0 :: rest2 := by
          have h := mem_uniqueDatesDesc.2 (List.mem_append_left E hjDD)
          rw [hu2] at h
          exact h
        rcases List.mem_cons.1 hju2 with heq | hm
        · exfalso
          omega
        · exact hm
      have hwalk_le : streakWalk d0 rest2 ≤ streakWalk d0 rest := by
        by_contra hgt
        push_neg at hgt
        have hmem2 : (d0 - ((streakWalk d0 rest + 1 : Nat) : Int)) ∈ rest2 :=
          streakWalk_mem d0 rest2 (streakWalk d0 rest + 1) (by omega) (by omega)
        have hmemU : (d0 - ((streakWalk d0 rest + 1 : Nat) : Int)) ∈ D ++ E := by
          have h := List.mem_cons_of_mem d0 hmem2
          rw [← hu2] at h
          exact mem_uniqueDatesDesc.1 h
        have hnot : (d0 - ((streakWalk d0 rest : Int) + 1)) ∉ rest :=
          streakWalk_stop_not_mem d0 rest hrest_pw hrest_lt
        have hcast : (d0 - ((streakWalk d0 rest + 1 : Nat) : Int))
            = d0 - ((streakWalk d0 rest : Int) + 1) := by push_cast; ring
        rw [hcast] at hmemU
        rcases List.mem_append.1 hmemU with hD | hE3
        · have hju : (d0 - ((streakWalk d0 rest : Int) + 1)) ∈ d0 :: rest := by
            have h := mem_uniqueDatesDesc.2 hD
            rw [hu] at h
            exact h
          rcases List.mem_cons.1 hju with heq | hm
          · omega
          · exact hnot hm
        · have := hE2 _ hE3
          omega
      have hw : streakWalk d0 rest2 = streakWalk d0 rest :=
        le_antisymm hwalk_le hwalk_ge
      rw [calcStreakFromDates_eq today hu2, if_pos hcond, hw, heqD]

/-- The streak only depends on the multiset of dates: the pipeline re-sorts. -/
theorem calcStreakFromDates_perm {l1 l2 : List Int} (h : l1.Perm l2)
    (today : Int) :
    calcStreakFromDates l1 today = calcStreakFromDates l2 today := by
  unfold calcStreakFromDates uniqueDatesDesc
  rw [List.eq_of_perm_of_sorted
    (((List.perm_insertionSort _ _).trans h.dedup).trans
      (List.perm_insertionSort _ _).symm)
    (List.sorted_insertionSort _ _) (List.sorted_insertionSort _ _)]

/-- C2 — The streak depends only on the unbroken run ending at today or
yesterday: inserting anywhere additional dates that all lie strictly before
the earliest day of that run with at least one missing day in between leaves
the streak unchanged; in particular dates for today and yesterday followed
by a gap give streak 2 however the older dates cluster. -/
theorem c2_streak_ignores_gapped_older_dates (D E : List Int) (today : Int) :
    (1 ≤ calcStreakFromDates D today →
      (∀ e ∈ E, e + 2 ≤ streakRunEarliest D today) →
      ∀ L : List Int, L.Perm (D ++ E) →
        calcStreakFromDates L today = calcStreakFromDates D today) ∧
    ((∀ e ∈ E, e ≤ today - 3) →
      calcStreakFromDates (today :: (today - 1) :: E) today = 2) := by
  constructor
  · intro h1 hE L hperm
    rw [calcStreakFromDates_perm hperm]
    exact streak_append_older_gapped D E today h1 hE
  · intro hgap
    have hne : today ∉ ([today - 1] : List Int) := by
      intro h
      have heq := List.mem_singleton.1 h
      omega
    have hdedup : ([today, today - 1] : List Int).dedup = [today, today - 1] := by
      rw [List.dedup_cons_of_not_mem hne]
      simp
    have hsort : uniqueDatesDesc [today, today - 1] = [today, today - 1] := by
      rw [uniqueDatesDesc, hdedup]
      simp only [List.insertionSort, List.orderedInsert]
      rw [if_pos (by omega : today ≥ today - 1)]
    have hstreak2 : calcStreakFromDates [today, today - 1] today = 2 := by
      rw [calcStreakFromDates_eq today hsort, if_pos (Or.inl rfl),
        streakWalk_cons, if_pos (by omega : today - (today - 1) = 1)]
      rfl
    have hearliest2 : streakRunEarliest [today, today - 1] today = today - 1 := by
      rw [streakRunEarliest, streakRunStart, hsort, hstreak2]
      simp only [List.headD_cons]
      push_cast
      ring
    have happ := streak_append_older_gapped [today, today - 1] E today
      (by rw [hstreak2]; omega)
      (by
        intro e he
        rw [hearliest2]
        have := hgap e he
        omega)
    rw [hstreak2] at happ
    simpa using happ

/-- Witness for C2 at a concrete input. -/
theorem c2_streak_ignores_gapped_older_dates_witness :
    calcStreakFromDates [10, 6, 9, 5] 10 = calcStreakFromDates [10, 9] 10 :=
  (c2_streak_ignores_gapped_older_dates [10, 9] [6, 5] 10).1
    (by decide) (by decide) [10, 6, 9, 5] (by decide)

/-- The streak from a parsed date list is at most the number of distinct
dates. -/
theorem calcStreak_le_distinct (dates : List Int) (today : Int) :
    calcStreakFromDates dates today ≤ dates.dedup.length := by
  have hlen : (uniqueDatesDesc dates).length = dates.dedup.length :=
    (List.perm_insertionSort _ _).length_eq
  cases hu : uniqueDatesDesc dates with
  | nil => rw [calcStreakFromDates_nil today hu]; omega
  | cons d0 rest =>
    rw [calcStreakFromDates_eq today hu]
    rw [hu] at hlen
    by_cases hc : d0 = today ∨ d0 = today - 1
    · rw [if_pos hc]
      have hwl := streakWalk_le_length d0 rest
      simp only [List.length_cons] at hlen
      omega
    · rw [if_neg hc]
      omega

/-- C9 — The streak computation is total (a Lean function into `Nat`, hence
non-negative on every input, malformed stores included) and never exceeds
the number of distinct successfully parsed calendar dates. -/
theorem c9_streak_bounded_by_distinct_dates (s : Store) (today : Int) :
    calculate_streak s today ≤ distinctParsedCount s := by
  cases s with
  | missing => exact le_refl 0
  | emptyData => exact le_refl 0
  | malformed => exact le_refl 0
  | ok df =>
    show (if dfEmpty df then 0
      else match streakResolveCol df with
        | none => 0
        | some i =>
          let dates := streakParsedDates df i
          if dates.isEmpty then 0 else calcStreakFromDates dates today)
      ≤ if dfEmpty df then 0
      else match streakResolveCol df with
        | none => 0
        | some i => (streakParsedDates df i).dedup.length
    by_cases he : dfEmpty df
    · rw [if_pos he, if_pos he]
    · rw [if_neg he, if_neg he]
      cases hr : streakResolveCol df with
      | none => exact le_refl 0
      | some i =>
        simp only
        by_cases hd : (streakParsedDates df i).isEmpty
        · rw [if_pos hd]
          exact Nat.zero_le _
        · rw [if_neg hd]
          exact calcStreak_le_distinct _ today

theorem heatmapResolveCol_eq_streak (df : DataFrame) :
    heatmapResolveCol df = streakResolveCol df := rfl

theorem heatmapParsedDates_eq_streak (df : DataFrame) (i : Nat) :
    heatmapParsedDates df i = streakParsedDates df i := rfl

theorem calculate_streak_ok (df : DataFrame) (today : Int) :
    calculate_streak (.ok df) today =
      if dfEmpty df then 0
      else
        match streakResolveCol df with
        | none => 0
        | some i =>
          if (streakParsedDates df i).isEmpty then 0
          else calcStreakFromDates (streakParsedDates df i) today := rfl

theorem create_activity_heatmap_ok (df : DataFrame) :
    create_activity_heatmap (.ok df) =
      if dfEmpty df then none
      else
        match heatmapResolveCol df with
        | none => none
        | some i =>
          if (heatmapParsedDates df i).isEmpty then none
          else
            if (dailyCounts (heatmapParsedDates df i)).isEmpty then none
            else some (dailyCounts (heatmapParsedDates df i)) := rfl

/-- C3 — Timestamp-column resolution tries, in order: the column named
`timestamp`; else the column named `Date and Time`; else, when a column
exists, the first column exactly when its parse succeeds; and it fails
exactly when there is no column at all or that fallback parse fails, in
which case both computations yield their zero/empty result. -/
theorem c3_column_resolution_order (df : DataFrame) :
    ("timestamp" ∈ df.cols →
      streakResolveCol df = some (df.cols.indexOf "timestamp")) ∧
    ("timestamp" ∉ df.cols → "Date and Time" ∈ df.cols →
      streakResolveCol df = some (df.cols.indexOf "Date and Time")) ∧
    ("timestamp" ∉ df.cols → "Date and Time" ∉ df.cols → df.cols ≠ [] →
      firstColParses df = true → streakResolveCol df = some 0) ∧
    (streakResolveCol df = none ↔
      df.cols = [] ∨
        ("timestamp" ∉ df.cols ∧ "Date and Time" ∉ df.cols ∧
          firstColParses df = false)) ∧
    (∀ today : Int, streakResolveCol df = none →
      calculate_streak (.ok df) today = 0) ∧
    (streakResolveCol df = none → create_activity_heatmap (.ok df) = none) := by
  refine ⟨?_, ?_, ?_, ?_, ?_, ?_⟩
  · intro h1
    rw [streakResolveCol, if_pos h1]
  · intro h1 h2
    rw [streakResolveCol, if_neg h1, if_pos h2]
  · intro h1 h2 h3 h4
    rw [streakResolveCol, if_neg h1, if_neg h2,
      if_pos (List.length_pos.2 h3), if_pos h4]
  · constructor
    · intro hn
      rw [streakResolveCol] at hn
      by_cases h1 : "timestamp" ∈ df.cols
      · rw [if_pos h1] at hn
        simp at hn
      · rw [if_neg h1] at hn
        by_cases h2 : "Date and Time" ∈ df.cols
        · rw [if_pos h2] at hn
          simp at hn
        · rw [if_neg h2] at hn
          by_cases h3 : 0 < df.cols.length
          · rw [if_pos h3] at hn
            by_cases h4 : firstColParses df
            · rw [if_pos h4] at hn
              simp at hn
            · exact Or.inr ⟨h1, h2, by simpa using h4⟩
          · exact Or.inl (List.length_eq_zero.1 (by omega))
    · intro h
      rcases h with hnil | ⟨h1, h2, h4⟩
      · rw [streakResolveCol, hnil]
        simp
      · rw [streakResolveCol, if_neg h1, if_neg h2]
        by_cases h3 : 0 < df.cols.length
        · rw [if_pos h3, if_neg (by simp [h4])]
        · rw [if_neg h3]
  · intro today hn
    rw [calculate_streak_ok]
    by_cases he : dfEmpty df
    · rw [if_pos he]
    · rw [if_neg he, hn]
  · intro hn
    rw [create_activity_heatmap_ok]
    by_cases he : dfEmpty df
    · rw [if_pos he]
    · rw [if_neg he, heatmapResolveCol_eq_streak, hn]

/-- Witness for C3 at a concrete input. -/
theorem c3_column_resolution_order_witness :
    streakResolveCol ⟨["mood", "timestamp"], [[none, some 3]]⟩ = some 1 :=
  ((c3_column_resolution_order ⟨["mood", "timestamp"], [[none, some 3]]⟩).1
    (by decide)).trans (by decide)

/-- C8 — A missing store, a zero-size/unreadable store, or an empty frame all
yield the zero/empty defaults: streak 0 and no heatmap.  Both computations
are total Lean functions, so no "not found" condition can escape them. -/
theorem c8_missing_or_empty_store_yields_defaults (today : Int) (df : DataFrame) :
    calculate_streak .missing today = 0 ∧
    calculate_streak .emptyData today = 0 ∧
    create_activity_heatmap .missing = none ∧
    create_activity_heatmap .emptyData = none ∧
    (dfEmpty df = true →
      calculate_streak (.ok df) today = 0 ∧
        create_activity_heatmap (.ok df) = none) := by
  refine ⟨rfl, rfl, rfl, rfl, fun he => ⟨?_, ?_⟩⟩
  · rw [calculate_streak_ok, if_pos he]
  · rw [create_activity_heatmap_ok, if_pos he]

/-- Witness for C8 at a concrete input. -/
theorem c8_missing_or_empty_store_yields_defaults_witness :
    calculate_streak (.ok ⟨["timestamp"], []⟩) 7 = 0 ∧
      create_activity_heatmap (.ok ⟨["timestamp"], []⟩) = none :=
  (c8_missing_or_empty_store_yields_defaults 7 ⟨["timestamp"], []⟩).2.2.2.2
    (by decide)

/-- C10 — The duplicated resolution-and-parsing stages of the streak and
heatmap computations are equivalent: identical column choice and identical
(hence multiset-equal) parsed calendar dates. -/
theorem c10_streak_heatmap_resolution_equivalent (df : DataFrame) (i : Nat) :
    streakResolveCol df = heatmapResolveCol df ∧
    streakParsedDates df i = heatmapParsedDates df i ∧
    ((streakParsedDates df i : Multiset Int)
      = (heatmapParsedDates df i : Multiset Int)) :=
  ⟨rfl, rfl, rfl⟩

/-- C5 — A duplicate record on an already-present day leaves the streak
unchanged (distinct days drive continuity) but raises that day's activity
count by one. -/
theorem c5_duplicates_conflated_for_streak_counted_for_volume
    (dates : List Int) (d : Int) (today : Int) (h : d ∈ dates) :
    calcStreakFromDates (d :: dates) today = calcStreakFromDates dates today ∧
    dailyCounts (d :: dates) =
      (dailyCounts dates).map fun p => if p.1 = d then (p.1, p.2 + 1) else p := by
  have hded : (d :: dates).dedup = dates.dedup := List.dedup_cons_of_mem h
  constructor
  · unfold calcStreakFromDates uniqueDatesDesc
    rw [hded]
  · rw [dailyCounts, dailyCounts, hded, List.map_map]
    apply List.map_congr_left
    intro x hx
    simp only [Function.comp_apply]
    by_cases hxd : x = d
    · simp [List.count_cons, hxd]
    · simp [List.count_cons, hxd]

/-- Witness for C5 at a concrete input. -/
theorem c5_duplicates_conflated_for_streak_counted_for_volume_witness :
    calcStreakFromDates (3 :: [3, 2]) 3 = calcStreakFromDates [3, 2] 3 :=
  (c5_duplicates_conflated_for_streak_counted_for_volume [3, 2] 3 3
    (by decide)).1

/-- C6 — The daily counts conserve records: the values sum to the number of
parsed dates, and every emitted entry is a day that actually occurs, with
count at least 1 (days with zero records are simply absent). -/
theorem c6_daily_counts_conserve_records (dates : List Int) :
    ((dailyCounts dates).map Prod.snd).sum = dates.length ∧
    ∀ p ∈ dailyCounts dates, 1 ≤ p.2 ∧ p.1 ∈ dates := by
  constructor
  · rw [dailyCounts, List.map_map]
    have h1 : (Prod.snd ∘ fun d : Int => (d, dates.count d))
        = fun d : Int => dates.count d := rfl
    rw [h1]
    have hperm := (List.perm_insertionSort (fun a b : Int => a ≤ b)
      dates.dedup).map (fun d : Int => dates.count d)
    rw [hperm.sum_eq, List.sum_map_count_dedup_eq_length]
  · intro p hp
    rw [dailyCounts] at hp
    rcases List.mem_map.1 hp with ⟨x, hx, rfl⟩
    have hxm : x ∈ dates :=
      List.mem_dedup.1 ((List.perm_insertionSort _ _).subset hx)
    exact ⟨List.count_pos_iff.2 hxm, hxm⟩

/-- Witness for C6 at a concrete input. -/
theorem c6_daily_counts_conserve_records_witness :
    1 ≤ ((5 : Int), 2).2 ∧ ((5 : Int), 2).1 ∈ ([5, 5, 4] : List Int) :=
  (c6_daily_counts_conserve_records [5, 5, 4]).2 (5, 2) (by decide)

/-- The ascending sort of the distinct dates is strictly increasing. -/
theorem sorted_dedup_asc_strict (l : List Int) :
    List.Pairwise (fun a b : Int => a < b)
      (List.insertionSort (fun a b : Int => a ≤ b) l.dedup) := by
  have h1 : List.Sorted (fun a b : Int => a ≤ b)
      (List.insertionSort (fun a b : Int => a ≤ b) l.dedup) :=
    List.sorted_insertionSort _ _
  have h2 : (List.insertionSort (fun a b : Int => a ≤ b) l.dedup).Nodup :=
    ((List.perm_insertionSort _ _).nodup_iff).2 (List.nodup_dedup l)
  exact (List.Pairwise.and h1 h2).imp fun h => lt_of_le_of_ne h.1 h.2

/-- C7 — The daily counts are order-independent (equal on any permutation of
the parsed dates) and emitted in strictly ascending date order. -/
theorem c7_daily_counts_order_independent_and_sorted
    (l1 l2 : List Int) (hp : l1.Perm l2) :
    dailyCounts l1 = dailyCounts l2 ∧
    (dailyCounts l1).Pairwise (fun p q : Int × Nat => p.1 < q.1) := by
  constructor
  · have hd : l1.dedup.Perm l2.dedup := hp.dedup
    have hchain : (List.insertionSort (fun a b : Int => a ≤ b) l1.dedup).Perm
        (List.insertionSort (fun a b : Int => a ≤ b) l2.dedup) :=
      ((List.perm_insertionSort _ _).trans hd).trans
        (List.perm_insertionSort _ _).symm
    have heq : List.insertionSort (fun a b : Int => a ≤ b) l1.dedup
        = List.insertionSort (fun a b : Int => a ≤ b) l2.dedup :=
      List.eq_of_perm_of_sorted hchain
        (List.sorted_insertionSort _ _) (List.sorted_insertionSort _ _)
    rw [dailyCounts, dailyCounts, heq]
    apply List.map_congr_left
    intro x hx
    rw [hp.count_eq]
  · rw [dailyCounts]
    rw [List.pairwise_map]
    exact sorted_dedup_asc_strict l1

/-- Witness for C7 at a concrete input. -/
theorem c7_daily_counts_order_independent_and_sorted_witness :
    dailyCounts [3, 2, 3] = dailyCounts [2, 3, 3] :=
  (c7_daily_counts_order_independent_and_sorted [3, 2, 3] [2, 3, 3]
    (by decide)).1

theorem parseableOnly_cols (df : DataFrame) (i : Nat) :
    (parseableOnly df i).cols = df.cols := rfl

theorem parseableOnly_rows (df : DataFrame) (i : Nat) :
    (parseableOnly df i).rows = df.rows.filter fun r => (getCell r i).isSome := rfl

/-- Filtering out exactly the inputs on which `f` fails does not change a
`filterMap`. -/
theorem filterMap_filter_isSome {α β : Type} (f : α → Option β) (l : List α) :
    (l.filter fun a => (f a).isSome).filterMap f = l.filterMap f := by
  induction l with
  | nil => rfl
  | cons a l ih =>
    cases hfa : f a with
    | none => simp [List.filter_cons, List.filterMap_cons, hfa, ih]
    | some b => simp [List.filter_cons, List.filterMap_cons, hfa, ih]

theorem firstColParses_parseableOnly (df : DataFrame) :
    firstColParses (parseableOnly df 0) = true := by
  rw [firstColParses, parseableOnly_rows, List.all_eq_true]
  intro r hr
  exact (List.mem_filter.1 hr).2

/-- Dropping the unparseable rows does not change which column resolves. -/
theorem streakResolveCol_parseableOnly {df : DataFrame} {i : Nat}
    (h : streakResolveCol df = some i) :
    streakResolveCol (parseableOnly df i) = some i := by
  rw [streakResolveCol] at h
  rw [streakResolveCol, parseableOnly_cols]
  by_cases h1 : "timestamp" ∈ df.cols
  · rw [if_pos h1] at h ⊢
    exact h
  · rw [if_neg h1] at h ⊢
    by_cases h2 : "Date and Time" ∈ df.cols
    · rw [if_pos h2] at h ⊢
      exact h
    · rw [if_neg h2] at h ⊢
      by_cases h3 : 0 < df.cols.length
      · rw [if_pos h3] at h ⊢
        by_cases h4 : firstColParses df
        · rw [if_pos h4] at h
          have hi : i = 0 := (Option.some.inj h).symm
          subst hi
          rw [if_pos (firstColParses_parseableOnly df)]
        · rw [if_neg h4] at h
          exact absurd h (by simp)
      · rw [if_neg h3] at h
        exact absurd h (by simp)

/-- Dropping the unparseable rows keeps exactly the parsed dates. -/
theorem streakParsedDates_parseableOnly (df : DataFrame) (i : Nat) :
    streakParsedDates (parseableOnly df i) i = streakParsedDates df i := by
  rw [streakParsedDates, streakParsedDates, parseableOnly_rows]
  exact filterMap_filter_isSome _ _

theorem cols_ne_nil_of_resolve {df : DataFrame} {i : Nat}
    (h : streakResolveCol df = some i) : df.cols ≠ [] := by
  intro hc
  rw [streakResolveCol, hc] at h
  simp at h

theorem dfEmpty_eq_rows_isEmpty {df : DataFrame} (h : df.cols ≠ []) :
    dfEmpty df = df.rows.isEmpty := by
  rw [dfEmpty]
  have hc : df.cols.isEmpty = false := by
    cases hcl : df.cols
    · exact absurd hcl h
    · rfl
  rw [hc, Bool.or_false]

theorem calculate_streak_ok_resolved {df : DataFrame} {i : Nat} (today : Int)
    (hc : df.cols ≠ []) (h : streakResolveCol df = some i) :
    calculate_streak (.ok df) today =
      if (streakParsedDates df i).isEmpty then 0
      else calcStreakFromDates (streakParsedDates df i) today := by
  rw [calculate_streak_ok, dfEmpty_eq_rows_isEmpty hc]
  by_cases hr : df.rows.isEmpty
  · rw [if_pos hr]
    have hrows : df.rows = [] := List.isEmpty_iff.1 hr
    have hpd : streakParsedDates df i = [] := by
      rw [streakParsedDates, hrows]
      rfl
    rw [hpd]
    rfl
  · rw [if_neg hr, h]

theorem create_activity_heatmap_ok_resolved {df : DataFrame} {i : Nat}
    (hc : df.cols ≠ []) (h : streakResolveCol df = some i) :
    create_activity_heatmap (.ok df) =
      if (streakParsedDates df i).isEmpty then none
      else
        if (dailyCounts (streakParsedDates df i)).isEmpty then none
        else some (dailyCounts (streakParsedDates df i)) := by
  rw [create_activity_heatmap_ok, dfEmpty_eq_rows_isEmpty hc,
    heatmapResolveCol_eq_streak]
  by_cases hr : df.rows.isEmpty
  · rw [if_pos hr]
    have hrows : df.rows = [] := List.isEmpty_iff.1 hr
    have hpd : streakParsedDates df i = [] := by
      rw [streakParsedDates, hrows]
      rfl
    rw [hpd]
    rfl
  · rw [if_neg hr, h]
    show (if (heatmapParsedDates df i).isEmpty then none
      else
        if (dailyCounts (heatmapParsedDates df i)).isEmpty then none
        else some (dailyCounts (heatmapParsedDates df i))) = _
    rw [heatmapParsedDates_eq_streak]

/-- C4 — Records whose timestamp fails to parse are dropped without aborting
the batch, and records whose timestamp parses are all still used: the full
computations agree with the computations run on only the parseable rows. -/
theorem c4_unparseable_rows_dropped_without_aborting
    (df : DataFrame) (i : Nat) (today : Int)
    (h : streakResolveCol df = some i) :
    streakResolveCol (parseableOnly df i) = some i ∧
    streakParsedDates (parseableOnly df i) i = streakParsedDates df i ∧
    calculate_streak (.ok df) today
      = calculate_streak (.ok (parseableOnly df i)) today ∧
    create_activity_heatmap (.ok df)
      = create_activity_heatmap (.ok (parseableOnly df i)) := by
  have hres := streakResolveCol_parseableOnly h
  have hpd := streakParsedDates_parseableOnly df i
  have hcols := cols_ne_nil_of_resolve h
  have hcols2 : (parseableOnly df i).cols ≠ [] := by
    rw [parseableOnly_cols]
    exact hcols
  refine ⟨hres, hpd, ?_, ?_⟩
  · rw [calculate_streak_ok_resolved today hcols h,
      calculate_streak_ok_resolved today hcols2 hres, hpd]
  · rw [create_activity_heatmap_ok_resolved hcols h,
      create_activity_heatmap_ok_resolved hcols2 hres, hpd]

/-- Witness for C4 at a concrete input. -/
theorem c4_unparseable_rows_dropped_without_aborting_witness :
    calculate_streak (.ok ⟨["timestamp"], [[some 3], [none]]⟩) 3
      = calculate_streak
          (.ok (parseableOnly ⟨["timestamp"], [[some 3], [none]]⟩ 0)) 3 :=
  (c4_unparseable_rows_dropped_without_aborting
    ⟨["timestamp"], [[some 3], [none]]⟩ 0 3 (by decide)).2.2.1
